import Mathlib

/-!
Verification development for the Flux language front end (scanner and
recursive-descent parser).  The definitions below are a shallow embedding of

* the ragel lexical grammar in `internal/scanner/scanner.rl` together with the
  Go wrapper `Scanner` (fields `p`, `reset`, `curline`, methods `Scan`,
  `ScanNoRegex`, `Unread`, `scan`), and
* the recursive-descent parser in `internal/parser/error.go`
  (`parser.program`, `statement`, `exprStart`, the precedence-level handlers,
  `pipeExpr`, `parenExpr`, `indexExpr`, `expect`, `parseDuration`, ...).

Bytes are modelled as `Char` lists (all inputs of interest are ASCII plus the
micro sign), machine integers as `Nat`/`Int` with explicit range checks where
the Go code checks them, and Go panics as an explicit error outcome.
-/

namespace Flux

/-- Token kinds, following the enumeration in `scanner.rl` plus the extra
keywords emitted by the `main` machine. -/
inductive Token where
  | ILLEGAL | EOF | COMMENT
  | AND | OR | NOT | EMPTY | IN | IMPORT | PACKAGE | RETURN | OPTION | BUILTIN
  | TEST | IF | THEN | ELSE | EXISTS
  | IDENT | INT | FLOAT | STRING | REGEX | TIME | DURATION
  | ADD | SUB | MUL | DIV | MOD
  | EQ | LT | GT | LTE | GTE | NEQ | REGEXEQ | REGEXNEQ
  | ASSIGN | ARROW | LPAREN | RPAREN | LBRACK | RBRACK | LBRACE | RBRACE
  | COMMA | DOT | COLON | PIPE_FORWARD | PIPE_RECEIVE
  deriving DecidableEq, Repr

/-! ## Character classes

`unicode.rl` classifies full Unicode letters (`ualpha`/`ualnum`).  Characters
outside ASCII that occur in this development are covered explicitly; the
classification agrees with Go's `unicode.IsLetter`/`IsDigit` on them. -/

/-- Unicode letter test (`ualpha`), modelled for the characters that occur in
the lexical grammar of this development. -/
def isUniLetter (c : Char) : Bool :=
  c.isAlpha || c = 'µ' || c = 'α' || c = 'β'

def isDigitCh (c : Char) : Bool := c.isDigit

def isIdentStart (c : Char) : Bool := isUniLetter c || c = '_'

def isIdentCont (c : Char) : Bool := isUniLetter c || isDigitCh c || c = '_'

/-- whitespace characters (`newline | space` where `space` is the ragel
builtin: space, tab, newline, vertical tab, form feed, carriage return). -/
def isSpaceCh (c : Char) : Bool :=
  c = ' ' || c = '\t' || c = '\n' || c = '\r' || c = '\x0b' || c = '\x0c'

/-- `xdigit` (hexadecimal digit). -/
def isHexCh (c : Char) : Bool :=
  c.isDigit || ('a' ≤ c && c ≤ 'f') || ('A' ≤ c && c ≤ 'F')

/-! ## Pattern matchers

Each matcher returns the length (in characters) of the longest match of its
pattern at the head of the input, or `none` when the pattern does not match.
The token machines combine them by maximal munch with first-listed-wins ties,
which is the semantics of a ragel scanner block. -/

/-- Length of the longest run of characters satisfying `p` at the head. -/
def spanLen (p : Char → Bool) : List Char → Nat
  | [] => 0
  | c :: cs => if p c then spanLen p cs + 1 else 0

/-- Match a literal string pattern. -/
def matchLit (pat : List Char) (s : List Char) : Option Nat :=
  match pat, s with
  | [], _ => some 0
  | _ :: _, [] => none
  | p :: ps, c :: cs =>
    if c = p then (matchLit ps cs).map (· + 1) else none

/-- `identifier = (ualpha | "_") (ualnum | "_")*` -/
def matchIdent : List Char → Option Nat
  | [] => none
  | c :: cs => if isIdentStart c then some (spanLen isIdentCont cs + 1) else none

/-- `int_lit = "0" | (digit - "0") digit*` -/
def matchInt : List Char → Option Nat
  | [] => none
  | c :: cs =>
    if c = '0' then some 1
    else if isDigitCh c then some (spanLen isDigitCh cs + 1)
    else none

/-- `float_lit = (digit+ "." digit*) | ("." digit+)` -/
def matchFloat (s : List Char) : Option Nat :=
  match s with
  | '.' :: cs =>
    let n := spanLen isDigitCh cs
    if n = 0 then none else some (n + 1)
  | _ =>
    let n := spanLen isDigitCh s
    if n = 0 then none
    else match s.drop n with
      | '.' :: cs => some (n + 1 + spanLen isDigitCh cs)
      | _ => none

/-- `duration_unit = "y" | "mo" | "w" | "d" | "h" | "m" | "s" | "ms" | "us"
| "µs" | "ns"`, matched longest-first per repetition. -/
def matchUnit : List Char → Option Nat
  | 'y' :: _ => some 1
  | 'w' :: _ => some 1
  | 'd' :: _ => some 1
  | 'h' :: _ => some 1
  | 'm' :: 'o' :: _ => some 2
  | 'm' :: 's' :: _ => some 2
  | 'm' :: _ => some 1
  | 's' :: _ => some 1
  | 'u' :: 's' :: _ => some 2
  | 'µ' :: 's' :: _ => some 2
  | 'n' :: 's' :: _ => some 2
  | _ => none

/-- `duration_lit = (int_lit duration_unit)+`: greedily match complete
`(integer, unit)` repetitions and return the total length, if at least one
repetition matched.  The step counter starts at the input length; every
step consumes at least two characters, so a zero counter implies the input
is exhausted and the zero branch coincides with the `matchInt`-fails
exit. -/
def matchDurationGo : Nat → List Char → Nat → Option Nat
  | 0, _, acc => if acc = 0 then none else some acc
  | steps + 1, s, acc =>
    match matchInt s with
    | none => if acc = 0 then none else some acc
    | some n =>
      match matchUnit (s.drop n) with
      | none => if acc = 0 then none else some acc
      | some u =>
        matchDurationGo steps (s.drop (n + u)) (acc + n + u)

def matchDuration (s : List Char) : Option Nat :=
  matchDurationGo s.length s 0

/-- Match exactly `k` digits at the head. -/
def matchDigits (k : Nat) (s : List Char) : Bool :=
  (s.take k).length = k && (s.take k).all isDigitCh

/-- `date = digit{4} "-" digit{2} "-" digit{2}` -/
def matchDate (s : List Char) : Option Nat :=
  if matchDigits 4 s &&
     (s.drop 4).headD ' ' = '-' &&
     matchDigits 2 (s.drop 5) &&
     (s.drop 7).headD ' ' = '-' &&
     matchDigits 2 (s.drop 8)
  then some 10 else none

/-- `time_offset = "Z" | (("+" | "-") digit{2} ":" digit{2})` -/
def matchTimeOffset : List Char → Option Nat
  | 'Z' :: _ => some 1
  | c :: rest =>
    if (c = '+' || c = '-') && matchDigits 2 rest &&
       (rest.drop 2).headD ' ' = ':' && matchDigits 2 (rest.drop 3)
    then some 6 else none
  | [] => none

/-- `time = digit{2} ":" digit{2} ":" digit{2} ("." digit*)? time_offset?` -/
def matchTimeOfDay (s : List Char) : Option Nat :=
  if matchDigits 2 s && (s.drop 2).headD ' ' = ':' && matchDigits 2 (s.drop 3) &&
     (s.drop 5).headD ' ' = ':' && matchDigits 2 (s.drop 6)
  then
    let frac := match s.drop 8 with
      | '.' :: cs => 1 + spanLen isDigitCh cs
      | _ => 0
    let off := (matchTimeOffset (s.drop (8 + frac))).getD 0
    some (8 + frac + off)
  else none

/-- `date_time_lit = date ("T" time)?` -/
def matchTime (s : List Char) : Option Nat :=
  (matchDate s).map fun d =>
    match s.drop d with
    | 'T' :: rest =>
      match matchTimeOfDay rest with
      | some t => d + 1 + t
      | none => d
    | _ => d

/-- String-literal body scan: after the opening quote, consume
`unicode_value | byte_value` items until the terminating quote
(`:>` finish-guarded concatenation terminates at the first usable quote).
Returns the number of characters consumed including the closing quote. -/
def stringBody : List Char → Option Nat
  | [] => none
  | '"' :: _ => some 1
  | '\\' :: e :: rest =>
    if e = 'n' || e = 'r' || e = 't' || e = '\\' || e = '"' then
      (stringBody rest).map (· + 2)
    else if e = 'x' then
      match rest with
      | h1 :: h2 :: rest' =>
        if isHexCh h1 && isHexCh h2 then (stringBody rest').map (· + 4)
        else none
      | _ => none
    else none
  | '\\' :: [] => none
  | _ :: rest => (stringBody rest).map (· + 1)

/-- `string_lit = '"' (unicode_value | byte_value)* :> '"'` -/
def matchString : List Char → Option Nat
  | '"' :: rest => (stringBody rest).map (· + 1)
  | _ => none

/-- Longer-match combination of two alternatives (ragel maximal munch picks
the longest successful alternative). -/
def omax : Option Nat → Option Nat → Option Nat
  | none, b => b
  | a, none => a
  | some a, some b => some (max a b)

/-- Regex-literal body scan: consume `regex_unicode_value | byte_value` items
(at least one, tracked by `n`) until the terminating slash.  A backslash is
ambiguous (escape head or a plain `any - "/"` character); maximal munch takes
the longest overall match, so both alternatives are combined with `omax`.
Returns characters consumed including the closing slash. -/
def regexBody : List Char → Nat → Option Nat
  | [], _ => none
  | '/' :: _, n => if n = 0 then none else some 1
  | '\\' :: e :: rest, n =>
    let esc : Option Nat :=
      if e = '/' || e = '\\' then (regexBody rest (n + 1)).map (· + 2)
      else if e = 'x' then
        match rest with
        | h1 :: h2 :: rest' =>
          if isHexCh h1 && isHexCh h2 then
            (regexBody rest' (n + 1)).map (· + 4)
          else none
        | _ => none
      else none
    let plain : Option Nat := (regexBody (e :: rest) (n + 1)).map (· + 1)
    omax esc plain
  | ['\\'], _ => none
  | _ :: rest, n => (regexBody rest (n + 1)).map (· + 1)

/-- `regex_lit = "/" (regex_unicode_value | byte_value)+ "/"` -/
def matchRegex : List Char → Option Nat
  | '/' :: rest => (regexBody rest 0).map (· + 1)
  | _ => none

/-- `single_line_comment = "//" [^\n]* newline?` -/
def matchComment : List Char → Option Nat
  | '/' :: '/' :: rest =>
    let n := spanLen (fun c => !(c = '\n')) rest
    let nl := if (rest.drop n).headD ' ' = '\n' then 1 else 0
    some (2 + n + nl)
  | _ => none

/-! ## The token machines -/

def litPat (pat : String) : List Char → Option Nat :=
  matchLit pat.toList

/-- The patterns of the `main` machine (the no-regex grammar), in source
order.  Maximal munch: the longest match wins, ties go to the earlier
pattern (ragel scanner semantics); whitespace is handled by the driver. -/
def mainPatterns : List ((List Char → Option Nat) × Token) :=
  [ (matchComment, .COMMENT),
    (litPat "and", .AND), (litPat "or", .OR), (litPat "not", .NOT),
    (litPat "empty", .EMPTY), (litPat "in", .IN), (litPat "import", .IMPORT),
    (litPat "package", .PACKAGE), (litPat "return", .RETURN),
    (litPat "option", .OPTION), (litPat "builtin", .BUILTIN),
    (litPat "test", .TEST), (litPat "if", .IF), (litPat "then", .THEN),
    (litPat "else", .ELSE), (litPat "exists", .EXISTS),
    (matchIdent, .IDENT),
    (matchInt, .INT),
    (matchFloat, .FLOAT),
    (matchDuration, .DURATION),
    (matchTime, .TIME),
    (matchString, .STRING),
    (litPat "+", .ADD), (litPat "-", .SUB), (litPat "*", .MUL),
    (litPat "/", .DIV), (litPat "%", .MOD),
    (litPat "==", .EQ), (litPat "<", .LT), (litPat ">", .GT),
    (litPat "<=", .LTE), (litPat ">=", .GTE), (litPat "!=", .NEQ),
    (litPat "=~", .REGEXEQ), (litPat "!~", .REGEXNEQ),
    (litPat "=", .ASSIGN), (litPat "=>", .ARROW), (litPat "<-", .PIPE_RECEIVE),
    (litPat "(", .LPAREN), (litPat ")", .RPAREN),
    (litPat "[", .LBRACK), (litPat "]", .RBRACK),
    (litPat "\x7b", .LBRACE), (litPat "\x7d", .RBRACE),
    (litPat ":", .COLON), (litPat "|>", .PIPE_FORWARD),
    (litPat ",", .COMMA), (litPat ".", .DOT) ]

/-- Maximal munch over a pattern list: longest match, first-listed wins ties. -/
def maxMunch (pats : List ((List Char → Option Nat) × Token))
    (s : List Char) : Option (Nat × Token) :=
  pats.foldl
    (fun best (pt : (List Char → Option Nat) × Token) =>
      match pt.1 s with
      | none => best
      | some len =>
        match best with
        | none => some (len, pt.2)
        | some (blen, _) => if len > blen then some (len, pt.2) else best)
    none

/-- Scan modes: `main_with_regex` tries a regex literal first and otherwise
defers to `main` (`any => { fhold; fgoto main; }`); `main` never produces a
regex literal. -/
inductive Mode where
  | withRegex
  | noRegex
  deriving DecidableEq, Repr

/-- Outcome of one machine execution: clean end of input, an error (no
pattern matched), or a token with its start/end offsets. -/
inductive CoreOut where
  | eof (endP : Nat)
  | illegal (endP : Nat)
  | tok (t : Token) (ts te : Nat)
  deriving DecidableEq, Repr

/-- Run one tokenization step of the selected machine on `data` starting at
offset `p`: skip whitespace, then match per the machine's scanner block. -/
def scanCore (data : List Char) (p : Nat) (mode : Mode) : CoreOut :=
  let rem := data.drop p
  let ws := spanLen isSpaceCh rem
  let q := p + ws
  let remq := rem.drop ws
  if remq.isEmpty then .eof data.length
  else
    let m := match mode with
      | .withRegex =>
        match matchRegex remq with
        | some len => some (len, Token.REGEX)
        | none => maxMunch mainPatterns remq
      | .noRegex => maxMunch mainPatterns remq
    match m with
    | some (len, tk) => .tok tk q (q + len)
    | none => .illegal q

/-- The Go `scanner.Scanner` state (`internal/scanner/scanner.go`): input
buffer, cursor `p`, pushback checkpoint `reset`, token bounds `ts`/`te`,
last machine token, and the line counter. -/
structure Scanner where
  data : List Char
  p : Nat
  reset : Nat
  ts : Nat
  te : Nat
  token : Token
  curline : Nat
  deriving DecidableEq, Repr

/-- `scanner.New` / `Init`. -/
def Scanner.new (src : String) : Scanner :=
  { data := src.toList, p := 0, reset := 0, ts := 0, te := 0,
    token := .ILLEGAL, curline := 1 }

/-- A `(position, token, lexeme)` triple as returned by `Scanner.scan`. -/
structure TokenTriple where
  pos : Nat
  tok : Token
  lit : List Char
  deriving DecidableEq, Repr

/-- Newlines in the consumed region, for the `newline`-action line
bookkeeping (`AddLine`). -/
def countNl (l : List Char) : Nat := l.count '\n'

/-- The Go `Scanner.scan` method: records `reset`, resets the token to
`ILLEGAL`, executes the machine, and maps the outcome to a triple.  The
returned position is the literal `0` of all three `return` statements. -/
def Scanner.scan (s : Scanner) (mode : Mode) : TokenTriple × Scanner :=
  let s0 : Scanner := { s with reset := s.p, token := .ILLEGAL }
  match scanCore s.data s.p mode with
  | .eof endP =>
    ({ pos := 0, tok := .EOF, lit := [] },
     { s0 with p := endP,
               curline := s0.curline + countNl ((s.data.drop s.p).take (endP - s.p)) })
  | .illegal endP =>
    ({ pos := 0, tok := .ILLEGAL, lit := [] },
     { s0 with p := endP,
               curline := s0.curline + countNl ((s.data.drop s.p).take (endP - s.p)) })
  | .tok tk ts te =>
    ({ pos := 0, tok := tk, lit := (s.data.drop ts).take (te - ts) },
     { s0 with p := te, ts := ts, te := te, token := tk,
               curline := s0.curline + countNl ((s.data.drop s.p).take (te - s.p)) })

/-- `Scanner.Scan` (the regex-sensitive mode, entry `flux_en_main` with the
regex machine). -/
def Scanner.Scan (s : Scanner) : TokenTriple × Scanner :=
  s.scan .withRegex

/-- `Scanner.ScanNoRegex` (entry without the regex literal). -/
def Scanner.ScanNoRegex (s : Scanner) : TokenTriple × Scanner :=
  s.scan .noRegex

/-- `Scanner.Unread`: rewind the cursor to the saved checkpoint. -/
def Scanner.Unread (s : Scanner) : Scanner :=
  { s with p := s.reset }

/-! ## Go standard-library helpers

Models of the stdlib calls made by the parser, restricted to the shapes the
scanner can produce (decimal digit strings, double-quoted literals). -/

/-- Numeric value of a digit string. -/
def digitsVal (s : List Char) : Nat :=
  s.foldl (fun a c => a * 10 + (c.toNat - '0'.toNat)) 0

/-- `strconv.ParseInt(s, 10, 64)` on an unsigned decimal digit string:
errors on an empty or non-digit string and on int64 overflow. -/
def goParseInt (s : List Char) : Except String Int :=
  if s.isEmpty then .error "invalid syntax"
  else if s.all isDigitCh then
    if digitsVal s ≤ 2 ^ 63 - 1 then .ok (Int.ofNat (digitsVal s))
    else .error "value out of range"
  else .error "invalid syntax"

/-- `strconv.Unquote` on a double-quoted literal: strips the quotes and
decodes the escapes of the lexical grammar; a stray quote, newline, bad
escape, or missing terminator is an error. -/
def goUnquote : List Char → Except String (List Char)
  | '"' :: rest => unq rest
  | _ => .error "invalid syntax"
where
  unq : List Char → Except String (List Char)
    | [] => .error "invalid syntax"
    | ['"'] => .ok []
    | '"' :: _ :: _ => .error "invalid syntax"
    | '\n' :: _ => .error "invalid syntax"
    | '\\' :: e :: rest =>
      if e = 'n' then (unq rest).map ('\n' :: ·)
      else if e = 'r' then (unq rest).map ('\r' :: ·)
      else if e = 't' then (unq rest).map ('\t' :: ·)
      else if e = '\\' then (unq rest).map ('\\' :: ·)
      else if e = '"' then (unq rest).map ('"' :: ·)
      else if e = 'x' then
        match rest with
        | h1 :: h2 :: rest2 =>
          if isHexCh h1 && isHexCh h2 then
            (unq rest2).map (Char.ofNat (hexVal h1 * 16 + hexVal h2) :: ·)
          else .error "invalid syntax"
        | _ => .error "invalid syntax"
      else .error "invalid syntax"
    | c :: rest => (unq rest).map (c :: ·)
  hexVal (c : Char) : Nat :=
    if c.isDigit then c.toNat - '0'.toNat
    else if 'a' ≤ c && c ≤ 'f' then c.toNat - 'a'.toNat + 10
    else c.toNat - 'A'.toNat + 10

/-- `µs` unit normalization in `parseDuration`. -/
def normUnit (u : List Char) : List Char :=
  if u = "µs".toList then "us".toList else u

/-- `parseDuration` from `internal/parser/error.go`: repeatedly split the
lexeme into a leading digit run (parsed with `strconv.ParseInt`) and a
leading letter run (the unit, `µs` normalized to `us`).  The step counter
starts at the lexeme length; every continuing step consumes at least one
character (`ParseInt` rejects an empty digit run), so a zero counter implies
the lexeme is exhausted and the zero branch coincides with the empty
exit. -/
def parseDurationGo : Nat → List Char → Except String (List (Int × List Char))
  | 0, _ => .ok []
  | steps + 1, lit =>
    if lit.isEmpty then .ok []
    else
      match goParseInt (lit.take (spanLen isDigitCh lit)) with
      | .error e => .error e
      | .ok magnitude =>
        (parseDurationGo steps ((lit.drop (spanLen isDigitCh lit)).drop
            (spanLen isUniLetter (lit.drop (spanLen isDigitCh lit))))).map
          ((magnitude,
            normUnit ((lit.drop (spanLen isDigitCh lit)).take
              (spanLen isUniLetter (lit.drop (spanLen isDigitCh lit))))) :: ·)

def parseDuration (lit : List Char) : Except String (List (Int × List Char)) :=
  parseDurationGo lit.length lit

/-- `parseRegexp` from `internal/parser/error.go`: checks the delimiting
slashes and unescapes `\/`; `regexp.Compile` is modelled as always
succeeding, returning the pattern text. -/
def parseRegexp (lit : List Char) : Except String (List Char) :=
  if lit.length < 3 then .error "regexp must be at least 3 characters"
  else if lit.headD ' ' ≠ '/' then .error "regexp literal must start with a slash"
  else if lit.getLastD ' ' ≠ '/' then .error "regexp literal must end with a slash"
  else .ok (unescapeSlash (lit.drop 1 |>.dropLast))
where
  unescapeSlash : List Char → List Char
    | '\\' :: '/' :: rest => '/' :: unescapeSlash rest
    | c :: rest => c :: unescapeSlash rest
    | [] => []

/-! ## The AST (`github.com/influxdata/flux/ast`)

The node variants and fields the parser constructs.  Go `nil` expressions
(produced by `dotExpr` at end of input) are the explicit variant `nilE`;
float values are kept as their lexemes (no claim inspects them). -/

inductive LogicalOp where
  | and | or
  deriving DecidableEq, Repr

inductive Op where
  | add | sub | mul | div | eq | neq | regexEq | regexNeq | not
  deriving DecidableEq, Repr

mutual
inductive Expr where
  | ident (name : String)
  | int (value : Int)
  | float (lit : String)
  | str (value : String)
  | regex (value : String)
  | duration (values : List (Int × String))
  | unary (op : Op) (argument : Expr)
  | binary (op : Op) (left right : Expr)
  | logical (op : LogicalOp) (left right : Expr)
  | pipe (argument : Expr) (call : Expr)
  | call (callee : Expr) (arguments : List Expr)
  | member (object : Expr) (property : Expr)
  | indexE (array : Expr) (idx : Expr)
  | array (elements : List Expr)
  | object (properties : List Property)
  | arrow (params : List Property) (body : FuncBody)
  | nilE
  deriving Repr

inductive Property where
  | mk (key : String) (value : Option Expr)
  deriving Repr

inductive FuncBody where
  | block (body : List Stmt)
  | expr (e : Expr)
  deriving Repr

inductive Stmt where
  | expr (e : Expr)
  | varDecl (id : String) (init : Expr)
  | optionStmt (id : String) (init : Expr)
  | ret (argument : Expr)
  | block (body : List Stmt)
  deriving Repr
end

/-! ## The parser (`internal/parser/error.go`)

The parser pulls tokens through the three-method `Scanner` interface; per the
interface contract any token replay can stand in for the lexical scanner, so
the parser is embedded over a token-list scanner with the same single-slot
pushback discipline as the real one (`reset` saved on every scan).  `NewAST`
wraps the source scanner in `scannerSkipComments`, so comment tokens are
skipped inside `scan`.  Go panics (failed type assertions, `panic` calls,
panics on malformed literals) are the `panicked` outcome; recursion is
fuel-bounded, with `outOfFuel` marking exhaustion. -/

structure PTok where
  tok : Token
  lit : String
  deriving DecidableEq, Repr

/-- Parser-side scanner state: the remaining token replay plus the `reset`
checkpoint captured at the start of the most recent scan. -/
structure PSt where
  rest : List PTok
  saved : List PTok
  deriving DecidableEq, Repr

/-- One scan: skip comment tokens (`scannerSkipComments`), save the
checkpoint, and produce the next token or end-of-input. -/
def PSt.scan (st : PSt) : PTok × PSt :=
  match st.rest.dropWhile (fun t => t.tok = .COMMENT) with
  | [] => (⟨.EOF, ""⟩, ⟨[], []⟩)
  | t :: r => (t, ⟨r, t :: r⟩)

/-- `Unread`: rewind to the checkpoint. -/
def PSt.unread (st : PSt) : PSt :=
  ⟨st.saved, st.saved⟩

def PSt.ofList (toks : List PTok) : PSt :=
  ⟨toks, toks⟩

/-- Parse outcome: a value plus the scanner state, a Go panic, or fuel
exhaustion. -/
inductive PRes (α : Type) where
  | ok (val : α) (st : PSt)
  | panicked (msg : String)
  | outOfFuel

def PRes.bind {α β : Type} : PRes α → (α → PSt → PRes β) → PRes β
  | .ok a st, k => k a st
  | .panicked m, _ => .panicked m
  | .outOfFuel, _ => .outOfFuel

def PRes.mapV {α β : Type} (g : α → β) : PRes α → PRes β
  | .ok a st => .ok (g a) st
  | .panicked m => .panicked m
  | .outOfFuel => .outOfFuel

/-- The loop of `expect`, processing the remaining token replay one token at
a time: comment tokens are absorbed by `scan` itself, expected tokens and
end-of-input stop the loop (leaving the state of the scan that found them),
and every other token is skipped.  The final state depends only on the
remaining tokens, so the loop recurses on that list. -/
def expectGo (toks : List Token) : List PTok → PSt
  | [] => ⟨[], []⟩
  | t :: r =>
    if t.tok = .COMMENT then expectGo toks r
    else if t.tok = .EOF then ⟨r, t :: r⟩
    else if t.tok ∈ toks then ⟨r, t :: r⟩
    else expectGo toks r

/-- `expect`: scan and skip every token until one of the expected tokens or
end-of-input comes up; it returns in both cases and reports nothing. -/
def expect (toks : List Token) (st : PSt) : PSt :=
  expectGo toks st.rest

/-- Result of `propertyList`'s key separator loop: the key/value separator
(or end of input, which Go's `break` treats the same), the list terminator,
or a comma. -/
inductive SepOut where
  | foundKvs | foundUntil | foundComma
  deriving DecidableEq, Repr

mutual

/-- `parser.statementList`: collect statements until `statement` reports the
end of the list. -/
def statementList : Nat → Token → PSt → PRes (List Stmt)
  | 0, _, _ => .outOfFuel
  | fuel + 1, eofTok, st =>
    (statement fuel eofTok st).bind fun os st1 =>
      match os with
      | none => .ok [] st1
      | some s1 => (statementList fuel eofTok st1).mapV (s1 :: ·)

/-- `parser.statement`: dispatch on the next token (regex-sensitive scan);
`none` signals the end of the statement list. -/
def statement : Nat → Token → PSt → PRes (Option Stmt)
  | 0, _, _ => .outOfFuel
  | fuel + 1, eofTok, st =>
    let (t, st1) := st.scan
    match t.tok with
    | .IDENT => (identStatement fuel t.lit st1).mapV some
    | .INT | .FLOAT | .STRING | .REGEX | .DURATION | .LPAREN | .LBRACK
    | .LBRACE | .ADD | .SUB | .NOT =>
      (unaryExprEval fuel t st1).bind fun lhs st2 =>
        (exprStatement fuel lhs st2).mapV some
    | .ILLEGAL => statement fuel eofTok st1
    | .RETURN =>
      (expression fuel st1).bind fun e st2 => .ok (some (.ret e)) st2
    | tk =>
      if tk = eofTok ∨ tk = .EOF then .ok none st1
      else statement fuel eofTok st1

/-- `parser.identStatement`: after a leading identifier, an `=` begins a
variable declaration, a second identifier may begin an option statement, and
anything else is unread and parsed as an expression statement. -/
def identStatement : Nat → String → PSt → PRes Stmt
  | 0, _, _ => .outOfFuel
  | fuel + 1, name, st =>
    let (t, st1) := st.scan
    match t.tok with
    | .ASSIGN =>
      (expression fuel st1).bind fun e st2 => .ok (.varDecl name e) st2
    | .IDENT =>
      if name = "option" then optionStatement fuel t.lit st1
      else exprStatement fuel (.ident name) st1.unread
    | _ => exprStatement fuel (.ident name) st1.unread

/-- `parser.optionStatement`: `expect` the `=` then parse the value. -/
def optionStatement : Nat → String → PSt → PRes Stmt
  | 0, _, _ => .outOfFuel
  | fuel + 1, name, st =>
    (expression fuel (expect [.ASSIGN] st)).bind fun e st1 =>
      .ok (.optionStmt name e) st1

/-- `parser.blockStatement`: a statement list terminated by `}`. -/
def blockStatement : Nat → PSt → PRes (List Stmt)
  | 0, _ => .outOfFuel
  | fuel + 1, st => statementList fuel .RBRACE st

/-- `parser.exprStatement`. -/
def exprStatement : Nat → Expr → PSt → PRes Stmt
  | 0, _, _ => .outOfFuel
  | fuel + 1, lhs, st =>
    (exprStart fuel lhs st).bind fun e st1 => .ok (.expr e) st1

/-- `parser.expression`. -/
def expression : Nat → PSt → PRes Expr
  | 0, _ => .outOfFuel
  | fuel + 1, st =>
    (unaryExpr fuel st).bind fun lhs st1 => exprStart fuel lhs st1

/-- `parser.expressionList` (array elements): parse elements separated by
commas until the terminator. -/
def expressionList : Nat → Token → PSt → PRes (List Expr)
  | 0, _, _ => .outOfFuel
  | fuel + 1, untl, st =>
    let (t, st1) := st.scan
    if t.tok = untl then .ok [] st1
    else
      (unaryExprEval fuel t st1).bind fun lhs st2 =>
        (exprStart fuel lhs st2).bind fun e st3 =>
          (exprListSep fuel untl st3).bind fun cont st4 =>
            if cont then (expressionList fuel untl st4).mapV (e :: ·)
            else .ok [e] st4

/-- The separator search in `expressionList`: `true` means a comma was found
and the list continues. -/
def exprListSep : Nat → Token → PSt → PRes Bool
  | 0, _, _ => .outOfFuel
  | fuel + 1, untl, st =>
    let (t, st1) := st.scan
    if t.tok = untl then .ok false st1
    else if t.tok = .COMMA then .ok true st1
    else if t.tok = .EOF then .ok false st1
    else exprListSep fuel untl st1

/-- `parser.propertyList` (object literals and call arguments): identifier
keys, optional values after the key/value separator, shorthand keys before a
comma or the terminator. -/
def propertyList : Nat → Token → Token → PSt → PRes (List Property)
  | 0, _, _, _ => .outOfFuel
  | fuel + 1, kvs, untl, st =>
    let (t, st1) := st.scan
    if t.tok = untl then .ok [] st1
    else if t.tok = .IDENT then
      (propSep fuel kvs untl st1).bind fun r st2 =>
        match r with
        | .foundKvs =>
          (expression fuel st2).bind fun e st3 =>
            (propTail fuel untl st3).bind fun cont st4 =>
              if cont then
                (propertyList fuel kvs untl st4).mapV (⟨t.lit, some e⟩ :: ·)
              else .ok [⟨t.lit, some e⟩] st4
        | .foundUntil => .ok [⟨t.lit, none⟩] st2
        | .foundComma =>
          (propertyList fuel kvs untl st2).mapV (⟨t.lit, none⟩ :: ·)
    else propertyList fuel kvs untl st1

/-- The separator search after a property key (`break` on the key/value
separator or end of input, return on the terminator, next property on a
comma; every other token is skipped). -/
def propSep : Nat → Token → Token → PSt → PRes SepOut
  | 0, _, _, _ => .outOfFuel
  | fuel + 1, kvs, untl, st =>
    let (t, st1) := st.scan
    if t.tok = kvs ∨ t.tok = .EOF then .ok .foundKvs st1
    else if t.tok = untl then .ok .foundUntil st1
    else if t.tok = .COMMA then .ok .foundComma st1
    else propSep fuel kvs untl st1

/-- The search after a property value: `true` on a comma (more properties),
`false` on the terminator; every other token is skipped. -/
def propTail : Nat → Token → PSt → PRes Bool
  | 0, _, _ => .outOfFuel
  | fuel + 1, untl, st =>
    let (t, st1) := st.scan
    if t.tok = .COMMA then .ok true st1
    else if t.tok = untl then .ok false st1
    else propTail fuel untl st1

/-- `parser.exprStart`: fold operators onto `lhs` until the next token is
handled by no level, then unread it and return. -/
def exprStart : Nat → Expr → PSt → PRes Expr
  | 0, _, _ => .outOfFuel
  | fuel + 1, lhs, st =>
    let (t, st1) := st.scan
    match handleLogicalExpr fuel lhs t.tok st1 with
    | .ok (some lhs2) st2 => exprStart fuel lhs2 st2
    | .ok none st2 => .ok lhs st2.unread
    | .panicked m => .panicked m
    | .outOfFuel => .outOfFuel

/-- `parser.handleLogicalExpr`: `and`/`or` at the lowest level, otherwise
delegate to the comparison level.  `none` means the token was not handled
(Go returns `false`). -/
def handleLogicalExpr : Nat → Expr → Token → PSt → PRes (Option Expr)
  | 0, _, _, _ => .outOfFuel
  | fuel + 1, lhs, tk, st =>
    match tk with
    | .AND => (logicalExpr fuel lhs .and st).mapV some
    | .OR => (logicalExpr fuel lhs .or st).mapV some
    | _ => handleComparisonExpr fuel lhs tk st

/-- `parser.logicalExpr`: parse the right-hand side at the comparison level
and fold comparison-level operators into it. -/
def logicalExpr : Nat → Expr → LogicalOp → PSt → PRes Expr
  | 0, _, _, _ => .outOfFuel
  | fuel + 1, lhs, op, st =>
    (unaryExpr fuel st).bind fun rhs st1 => logicalLoop fuel lhs op rhs st1

def logicalLoop : Nat → Expr → LogicalOp → Expr → PSt → PRes Expr
  | 0, _, _, _, _ => .outOfFuel
  | fuel + 1, lhs, op, rhs, st =>
    let (t, st1) := st.scan
    match handleComparisonExpr fuel rhs t.tok st1 with
    | .ok (some rhs2) st2 => logicalLoop fuel lhs op rhs2 st2
    | .ok none st2 => .ok (.logical op lhs rhs) st2.unread
    | .panicked m => .panicked m
    | .outOfFuel => .outOfFuel

/-- `parser.handleComparisonExpr`: equality and regex-match operators,
otherwise delegate to the multiplicative level. -/
def handleComparisonExpr : Nat → Expr → Token → PSt → PRes (Option Expr)
  | 0, _, _, _ => .outOfFuel
  | fuel + 1, lhs, tk, st =>
    match tk with
    | .EQ => (comparisonExpr fuel lhs .eq st).mapV some
    | .NEQ => (comparisonExpr fuel lhs .neq st).mapV some
    | .REGEXEQ => (comparisonExpr fuel lhs .regexEq st).mapV some
    | .REGEXNEQ => (comparisonExpr fuel lhs .regexNeq st).mapV some
    | _ => handleMultiplicativeExpr fuel lhs tk st

def comparisonExpr : Nat → Expr → Op → PSt → PRes Expr
  | 0, _, _, _ => .outOfFuel
  | fuel + 1, lhs, op, st =>
    (unaryExpr fuel st).bind fun rhs st1 => comparisonLoop fuel lhs op rhs st1

def comparisonLoop : Nat → Expr → Op → Expr → PSt → PRes Expr
  | 0, _, _, _, _ => .outOfFuel
  | fuel + 1, lhs, op, rhs, st =>
    let (t, st1) := st.scan
    match handleMultiplicativeExpr fuel rhs t.tok st1 with
    | .ok (some rhs2) st2 => comparisonLoop fuel lhs op rhs2 st2
    | .ok none st2 => .ok (.binary op lhs rhs) st2.unread
    | .panicked m => .panicked m
    | .outOfFuel => .outOfFuel

/-- `parser.handleMultiplicativeExpr`: `*` and `/`, otherwise delegate to
the additive level. -/
def handleMultiplicativeExpr : Nat → Expr → Token → PSt → PRes (Option Expr)
  | 0, _, _, _ => .outOfFuel
  | fuel + 1, lhs, tk, st =>
    match tk with
    | .MUL => (multiplicativeExpr fuel lhs .mul st).mapV some
    | .DIV => (multiplicativeExpr fuel lhs .div st).mapV some
    | _ => handleAdditiveExpr fuel lhs tk st

def multiplicativeExpr : Nat → Expr → Op → PSt → PRes Expr
  | 0, _, _, _ => .outOfFuel
  | fuel + 1, lhs, op, st =>
    (unaryExpr fuel st).bind fun rhs st1 =>
      multiplicativeLoop fuel lhs op rhs st1

def multiplicativeLoop : Nat → Expr → Op → Expr → PSt → PRes Expr
  | 0, _, _, _, _ => .outOfFuel
  | fuel + 1, lhs, op, rhs, st =>
    let (t, st1) := st.scan
    match handleAdditiveExpr fuel rhs t.tok st1 with
    | .ok (some rhs2) st2 => multiplicativeLoop fuel lhs op rhs2 st2
    | .ok none st2 => .ok (.binary op lhs rhs) st2.unread
    | .panicked m => .panicked m
    | .outOfFuel => .outOfFuel

/-- `parser.handleAdditiveExpr`: `+` and `-`, otherwise delegate to the
pipe-forward level. -/
def handleAdditiveExpr : Nat → Expr → Token → PSt → PRes (Option Expr)
  | 0, _, _, _ => .outOfFuel
  | fuel + 1, lhs, tk, st =>
    match tk with
    | .ADD => (additiveExpr fuel lhs .add st).mapV some
    | .SUB => (additiveExpr fuel lhs .sub st).mapV some
    | _ => handlePipeExpr fuel lhs tk st

def additiveExpr : Nat → Expr → Op → PSt → PRes Expr
  | 0, _, _, _ => .outOfFuel
  | fuel + 1, lhs, op, st =>
    (unaryExpr fuel st).bind fun rhs st1 => additiveLoop fuel lhs op rhs st1

def additiveLoop : Nat → Expr → Op → Expr → PSt → PRes Expr
  | 0, _, _, _, _ => .outOfFuel
  | fuel + 1, lhs, op, rhs, st =>
    let (t, st1) := st.scan
    match handlePipeExpr fuel rhs t.tok st1 with
    | .ok (some rhs2) st2 => additiveLoop fuel lhs op rhs2 st2
    | .ok none st2 => .ok (.binary op lhs rhs) st2.unread
    | .panicked m => .panicked m
    | .outOfFuel => .outOfFuel

/-- `parser.handlePipeExpr`: `|>`, otherwise delegate to the postfix
level. -/
def handlePipeExpr : Nat → Expr → Token → PSt → PRes (Option Expr)
  | 0, _, _, _ => .outOfFuel
  | fuel + 1, lhs, tk, st =>
    match tk with
    | .PIPE_FORWARD => (pipeExpr fuel lhs st).mapV some
    | _ => handlePostfixExpr fuel lhs tk st

/-- The right-hand-side phase of `parser.pipeExpr`: a unary expression with
every postfix-level operator folded in, the unhandled token unread. -/
def pipeExprRhs : Nat → PSt → PRes Expr
  | 0, _ => .outOfFuel
  | fuel + 1, st =>
    (unaryExpr fuel st).bind fun rhs st1 => rhsChainLoop fuel rhs st1

def rhsChainLoop : Nat → Expr → PSt → PRes Expr
  | 0, _, _ => .outOfFuel
  | fuel + 1, rhs, st =>
    let (t, st1) := st.scan
    match handlePostfixExpr fuel rhs t.tok st1 with
    | .ok (some rhs2) st2 => rhsChainLoop fuel rhs2 st2
    | .ok none st2 => .ok rhs st2.unread
    | .panicked m => .panicked m
    | .outOfFuel => .outOfFuel

/-- `parser.pipeExpr`: parse the right-hand side through the postfix chain,
then the Go type assertion `rhs.(*ast.CallExpression)` — a non-call
right-hand side panics. -/
def pipeExpr : Nat → Expr → PSt → PRes Expr
  | 0, _, _ => .outOfFuel
  | fuel + 1, lhs, st =>
    (pipeExprRhs fuel st).bind fun rhs st1 =>
      match rhs with
      | .call callee args => .ok (.pipe lhs (.call callee args)) st1
      | _ => .panicked "interface conversion: ast.Expression is not *ast.CallExpression"

/-- `parser.handlePostfixExpr`: call, member access, or index access;
`none` (Go `false`) for every other token. -/
def handlePostfixExpr : Nat → Expr → Token → PSt → PRes (Option Expr)
  | 0, _, _, _ => .outOfFuel
  | fuel + 1, lhs, tk, st =>
    match tk with
    | .LPAREN => (callExpr fuel lhs st).mapV some
    | .DOT => (dotExpr fuel lhs st).mapV some
    | .LBRACK => (indexExpr fuel lhs st).mapV some
    | _ => .ok none st

/-- `parser.callExpr`: arguments are a property list; a non-empty list is
wrapped in a single object expression. -/
def callExpr : Nat → Expr → PSt → PRes Expr
  | 0, _, _ => .outOfFuel
  | fuel + 1, callee, st =>
    (propertyList fuel .COLON .RPAREN st).bind fun params st1 =>
      match params with
      | [] => .ok (.call callee []) st1
      | _ :: _ => .ok (.call callee [.object params]) st1

/-- `parser.dotExpr`: skip tokens until an identifier (the member name) or
end of input (Go returns a nil expression). -/
def dotExpr : Nat → Expr → PSt → PRes Expr
  | 0, _, _ => .outOfFuel
  | fuel + 1, callee, st =>
    let (t, st1) := st.scan
    match t.tok with
    | .IDENT => .ok (.member callee (.ident t.lit)) st1
    | .EOF => .ok .nilE st1
    | _ => dotExpr fuel callee st1

/-- `parser.indexExpr`: parse the bracketed expression, `expect` the `]`,
and rewrite a string-literal index into member access. -/
def indexExpr : Nat → Expr → PSt → PRes Expr
  | 0, _, _ => .outOfFuel
  | fuel + 1, callee, st =>
    (expression fuel st).bind fun e st1 =>
      match e with
      | .str v => .ok (.member callee (.str v)) (expect [.RBRACK] st1)
      | _ => .ok (.indexE callee e) (expect [.RBRACK] st1)

/-- `parser.unaryExpr`. -/
def unaryExpr : Nat → PSt → PRes Expr
  | 0, _ => .outOfFuel
  | fuel + 1, st =>
    let (t, st1) := st.scan
    unaryExprEval fuel t st1

/-- `parser.unaryExprEval`: prefix `+`/`-`/`not` applied to a primary
expression, otherwise the primary expression itself. -/
def unaryExprEval : Nat → PTok → PSt → PRes Expr
  | 0, _, _ => .outOfFuel
  | fuel + 1, t, st =>
    match t.tok with
    | .ADD =>
      let (t2, st1) := st.scan
      (primaryExpr fuel t2 st1).mapV (.unary .add ·)
    | .SUB =>
      let (t2, st1) := st.scan
      (primaryExpr fuel t2 st1).mapV (.unary .sub ·)
    | .NOT =>
      let (t2, st1) := st.scan
      (primaryExpr fuel t2 st1).mapV (.unary .not ·)
    | _ => primaryExpr fuel t st

/-- `parser.primaryExpr`: literals, identifiers, arrays, objects and
parenthesized expressions; malformed literals and unexpected tokens
panic. -/
def primaryExpr : Nat → PTok → PSt → PRes Expr
  | 0, _, _ => .outOfFuel
  | fuel + 1, t, st =>
    match t.tok with
    | .IDENT => .ok (.ident t.lit) st
    | .INT =>
      match goParseInt t.lit.toList with
      | .ok v => .ok (.int v) st
      | .error e => .panicked e
    | .FLOAT => .ok (.float t.lit) st
    | .STRING =>
      match goUnquote t.lit.toList with
      | .ok v => .ok (.str (String.mk v)) st
      | .error e => .panicked e
    | .REGEX =>
      match parseRegexp t.lit.toList with
      | .ok v => .ok (.regex (String.mk v)) st
      | .error e => .panicked e
    | .DURATION =>
      match parseDuration t.lit.toList with
      | .ok vs => .ok (.duration (vs.map fun v => (v.1, String.mk v.2))) st
      | .error e => .panicked e
    | .LBRACK => (expressionList fuel .RBRACK st).mapV (.array ·)
    | .LBRACE => (propertyList fuel .COLON .RBRACE st).mapV (.object ·)
    | .LPAREN => parenExpr fuel st
    | _ => .panicked "invalid expression"

/-- `parser.parenExpr`: disambiguate arrow functions from parenthesized
expressions by limited lookahead with single-token unread. -/
def parenExpr : Nat → PSt → PRes Expr
  | 0, _ => .outOfFuel
  | fuel + 1, st =>
    let (t, st1) := st.scan
    match t.tok with
    | .RPAREN => arrowExpr fuel [] st1
    | .IDENT =>
      let (t2, st2) := st1.scan
      match t2.tok with
      | .RPAREN =>
        let (t3, st3) := st2.scan
        if t3.tok = .ARROW then arrowExprBody fuel [⟨t.lit, none⟩] st3
        else .ok (.ident t.lit) st3.unread
      | .ASSIGN =>
        (expression fuel st2).bind fun value st3 =>
          let (t4, st4) := st3.scan
          match t4.tok with
          | .COMMA =>
            (propertyList fuel .ASSIGN .RPAREN st4).bind fun rest st5 =>
              arrowExpr fuel (⟨t.lit, some value⟩ :: rest) st5
          | .RPAREN => arrowExpr fuel [⟨t.lit, some value⟩] st4
          | _ => arrowExpr fuel [⟨t.lit, some value⟩] (expect [.RPAREN] st4)
      | .COMMA =>
        (propertyList fuel .ASSIGN .RPAREN st2).bind fun rest st3 =>
          arrowExpr fuel (⟨t.lit, none⟩ :: rest) st3
      | _ =>
        (exprStart fuel (.ident t.lit) st2.unread).bind fun e st3 =>
          .ok e (expect [.RPAREN] st3)
    | _ =>
      (expression fuel st1.unread).bind fun e st2 =>
        .ok e (expect [.RPAREN] st2)

/-- `parser.arrowExpr`: `expect` the `=>` then parse the body. -/
def arrowExpr : Nat → List Property → PSt → PRes Expr
  | 0, _, _ => .outOfFuel
  | fuel + 1, params, st => arrowExprBody fuel params (expect [.ARROW] st)

/-- `parser.arrowExprBody`: a block statement after `{`, otherwise an
expression. -/
def arrowExprBody : Nat → List Property → PSt → PRes Expr
  | 0, _, _ => .outOfFuel
  | fuel + 1, params, st =>
    let (t, st1) := st.scan
    match t.tok with
    | .LBRACE =>
      (blockStatement fuel st1).bind fun ss st2 =>
        .ok (.arrow params (.block ss)) st2
    | _ =>
      (unaryExprEval fuel t st1).bind fun lhs st2 =>
        (exprStart fuel lhs st2).mapV fun e => .arrow params (.expr e)

end

/-- `parser.program` / `NewAST`: the whole token replay parsed as a
program body. -/
def program (fuel : Nat) (st : PSt) : PRes (List Stmt) :=
  statementList fuel .EOF st

/-- Parse a token replay from scratch. -/
def parseFlux (fuel : Nat) (toks : List PTok) : PRes (List Stmt) :=
  program fuel (PSt.ofList toks)

/-! ## Claims -/

/-- **C1 (counterexample)**: parsing the token sequence of `a |> b` — a pipe
whose right-hand side is a plain identifier, not a call — does not surface a
recoverable parse error: the failed `rhs.(*ast.CallExpression)` type
assertion aborts the whole parse with a panic. -/
theorem c1_pipe_counterexample :
    parseFlux 50 [⟨.IDENT, "a"⟩, ⟨.PIPE_FORWARD, "|>"⟩, ⟨.IDENT, "b"⟩] =
      .panicked "interface conversion: ast.Expression is not *ast.CallExpression" :=
  rfl

/-- **C1 (amended)**: `pipeExpr` parses its right-hand side through the full
postfix chain (`pipeExprRhs`); when the result is a call expression the
`PipeExpression` is built with `Argument = lhs` and `Call` = that call, and
when it is not, the parse panics (aborts) — it is neither accepted nor
reported as a recoverable error. -/
theorem c1_pipe_requires_call (fuel : Nat) (lhs rhs : Expr) (st st1 : PSt)
    (h : pipeExprRhs fuel st = .ok rhs st1) :
    (∀ callee args, rhs = .call callee args →
      pipeExpr (fuel + 1) lhs st = .ok (.pipe lhs rhs) st1) ∧
    ((∀ callee args, rhs ≠ .call callee args) →
      pipeExpr (fuel + 1) lhs st =
        .panicked "interface conversion: ast.Expression is not *ast.CallExpression") := by
  constructor
  · rintro callee args rfl
    simp [pipeExpr, h, PRes.bind]
  · intro hnc
    cases rhs <;> simp [pipeExpr, h, PRes.bind]
    exact absurd rfl (hnc _ _)

/-- **C1 (witness)**: the amended theorem at `a |> b()`. -/
theorem c1_pipe_witness :
    pipeExpr 50 (.ident "a") (PSt.ofList [⟨.IDENT, "b"⟩, ⟨.LPAREN, "("⟩, ⟨.RPAREN, ")"⟩]) =
      .ok (.pipe (.ident "a") (.call (.ident "b") [])) ⟨[], []⟩ :=
  (c1_pipe_requires_call 49 (.ident "a") (.call (.ident "b") [])
    (PSt.ofList [⟨.IDENT, "b"⟩, ⟨.LPAREN, "("⟩, ⟨.RPAREN, ")"⟩]) ⟨[], []⟩ rfl).1
    (.ident "b") [] rfl

/-- **C2**: the precedence order of the expression grammar, lowest to
highest: logical or/and, then equality/regex-match, then multiplicative,
then additive, then pipe-forward, then postfix; levels fold
left-associatively.  Demonstrated on the claim's own example `a * b + c`
(the additive expression is the right operand of the multiplication) and on
one token sequence for each adjacent pair of levels. -/
theorem c2_precedence_order :
    parseFlux 50 [⟨.IDENT, "a"⟩, ⟨.MUL, "*"⟩, ⟨.IDENT, "b"⟩, ⟨.ADD, "+"⟩, ⟨.IDENT, "c"⟩] =
      .ok [.expr (.binary .mul (.ident "a") (.binary .add (.ident "b") (.ident "c")))] ⟨[], []⟩ ∧
    parseFlux 50 [⟨.IDENT, "a"⟩, ⟨.OR, "or"⟩, ⟨.IDENT, "b"⟩, ⟨.EQ, "=="⟩, ⟨.IDENT, "c"⟩] =
      .ok [.expr (.logical .or (.ident "a") (.binary .eq (.ident "b") (.ident "c")))] ⟨[], []⟩ ∧
    parseFlux 50 [⟨.IDENT, "a"⟩, ⟨.EQ, "=="⟩, ⟨.IDENT, "b"⟩, ⟨.MUL, "*"⟩, ⟨.IDENT, "c"⟩] =
      .ok [.expr (.binary .eq (.ident "a") (.binary .mul (.ident "b") (.ident "c")))] ⟨[], []⟩ ∧
    parseFlux 50 [⟨.IDENT, "a"⟩, ⟨.ADD, "+"⟩, ⟨.IDENT, "b"⟩, ⟨.PIPE_FORWARD, "|>"⟩,
        ⟨.IDENT, "c"⟩, ⟨.LPAREN, "("⟩, ⟨.RPAREN, ")"⟩] =
      .ok [.expr (.binary .add (.ident "a")
        (.pipe (.ident "b") (.call (.ident "c") [])))] ⟨[], []⟩ ∧
    parseFlux 50 [⟨.IDENT, "a"⟩, ⟨.ADD, "+"⟩, ⟨.IDENT, "b"⟩, ⟨.ADD, "+"⟩, ⟨.IDENT, "c"⟩] =
      .ok [.expr (.binary .add (.binary .add (.ident "a") (.ident "b")) (.ident "c"))] ⟨[], []⟩ :=
  ⟨rfl, rfl, rfl, rfl, rfl⟩

/-- **C4**: after one scan in either mode, a single `Unread` followed by a
scan in the same mode returns the identical `(position, kind, lexeme)`
triple. -/
theorem c4_unread_rescan (s : Scanner) (m : Mode) :
    (((s.scan m).2.Unread).scan m).1 = (s.scan m).1 := by
  unfold Scanner.scan Scanner.Unread
  cases h : scanCore s.data s.p m <;> simp [h]

/-- **C5**: `Unread` is idempotent between scans — `p` is rewound to the
`reset` checkpoint, which `Unread` does not move, so a second consecutive
call changes nothing. -/
theorem c5_unread_idempotent (s : Scanner) : s.Unread.Unread = s.Unread :=
  rfl

/-- **C6**: the token sequence of `(a) => a` parses to an arrow function
with the single parameter `a` (no default value) and body `Identifier a`;
the token sequence of `(a)` alone parses to an expression statement around
the plain identifier `a`. -/
theorem c6_paren_arrow :
    parseFlux 50 [⟨.LPAREN, "("⟩, ⟨.IDENT, "a"⟩, ⟨.RPAREN, ")"⟩, ⟨.ARROW, "=>"⟩,
        ⟨.IDENT, "a"⟩] =
      .ok [.expr (.arrow [⟨"a", none⟩] (.expr (.ident "a")))] ⟨[], []⟩ ∧
    parseFlux 50 [⟨.LPAREN, "("⟩, ⟨.IDENT, "a"⟩, ⟨.RPAREN, ")"⟩] =
      .ok [.expr (.ident "a")] ⟨[], []⟩ :=
  ⟨rfl, rfl⟩

/-- **C7**: whatever expression the bracketed index parses to, `indexExpr`
rewrites a string-literal index into member access (no `IndexExpression`
node) and keeps every other index as an `IndexExpression` with
`Array = callee` and `Index` = that expression. -/
theorem c7_index_rewrite (fuel : Nat) (callee e : Expr) (st st1 : PSt)
    (h : expression fuel st = .ok e st1) :
    (∀ v, e = .str v →
      indexExpr (fuel + 1) callee st =
        .ok (.member callee (.str v)) (expect [.RBRACK] st1)) ∧
    ((∀ v, e ≠ .str v) →
      indexExpr (fuel + 1) callee st =
        .ok (.indexE callee e) (expect [.RBRACK] st1)) := by
  constructor
  · rintro v rfl
    simp [indexExpr, h, PRes.bind]
  · intro hns
    cases e <;> simp [indexExpr, h, PRes.bind]
    exact absurd rfl (hns _)

/-- **C7 (witness)**: the rewrite theorem applied at `x["b"]` (string-literal
index, rewritten to member access) and at `x[1]` (computed index kept). -/
theorem c7_index_witness :
    indexExpr 50 (.ident "x") (PSt.ofList [⟨.STRING, "\"b\""⟩, ⟨.RBRACK, "]"⟩]) =
      .ok (.member (.ident "x") (.str "b")) ⟨[], [⟨.RBRACK, "]"⟩]⟩ ∧
    indexExpr 50 (.ident "x") (PSt.ofList [⟨.INT, "1"⟩, ⟨.RBRACK, "]"⟩]) =
      .ok (.indexE (.ident "x") (.int 1)) ⟨[], [⟨.RBRACK, "]"⟩]⟩ :=
  ⟨(c7_index_rewrite 49 (.ident "x") (.str "b")
      (PSt.ofList [⟨.STRING, "\"b\""⟩, ⟨.RBRACK, "]"⟩])
      ⟨[⟨.RBRACK, "]"⟩], [⟨.RBRACK, "]"⟩]⟩ rfl).1 "b" rfl,
   (c7_index_rewrite 49 (.ident "x") (.int 1)
      (PSt.ofList [⟨.INT, "1"⟩, ⟨.RBRACK, "]"⟩])
      ⟨[⟨.RBRACK, "]"⟩], [⟨.RBRACK, "]"⟩]⟩ rfl).2 (by intro v h; cases h)⟩

/-- **C8**: scanning `a b`, the second returned triple carries position `0`
even though the token `b` starts at byte offset `2` (the `Scanner` records
the true start in `ts`): every `return` in `Scanner.scan` yields position 0,
so the returned position is not the token's start offset.  The line counter,
by contrast, is incremented for every consumed newline. -/
theorem c8_position_constant_zero :
    (Scanner.new "a b").Scan.2.Scan.1 = ⟨0, .IDENT, ['b']⟩ ∧
    (Scanner.new "a b").Scan.2.Scan.2.ts = 2 ∧
    (0 : Nat) ≠ 2 ∧
    (Scanner.new "\n\n x").Scan.2.curline = 3 :=
  ⟨rfl, rfl, by decide, rfl⟩

/-- `matchComment` fails on a `/` followed by anything other than a second
`/`. -/
theorem matchComment_cons_ne (c : Char) (rs : List Char) (hc : c ≠ '/') :
    matchComment ('/' :: c :: rs) = none := by
  simp only [matchComment.eq_def]
  split
  · next heq => rw [List.cons.injEq, List.cons.injEq] at heq; exact absurd heq.2.1 hc
  · rfl

/-- In the `main` machine, the only patterns matching an input that starts
with `/` are the comment (ruled out when the next character is not `/`) and
the division operator, so maximal munch yields `/` as `DIV`. -/
theorem maxMunch_slash (rest : List Char) (h : rest.headD ' ' ≠ '/') :
    maxMunch mainPatterns ('/' :: rest) = some (1, Token.DIV) := by
  cases rest with
  | nil => rfl
  | cons c rs =>
    simp only [List.headD_cons] at h
    simp [maxMunch, mainPatterns, matchComment_cons_ne c rs h, litPat, matchLit,
      matchIdent, isIdentStart, isUniLetter, matchInt, isDigitCh, matchFloat,
      spanLen, matchDuration, matchDurationGo, matchTime, matchDate, matchDigits,
      matchString]

/-- **C3 (counterexample)**: the input `//a` starts with `/`, yet
`ScanNoRegex` returns a comment token spanning `//a`, not a
division-operator token with lexeme `/` (the comment pattern out-munches the
division operator). -/
theorem c3_slash_counterexample :
    (Scanner.new "//a").ScanNoRegex.1 = ⟨0, .COMMENT, "//a".toList⟩ ∧
    (Scanner.new "//a").ScanNoRegex.1 ≠ ⟨0, .DIV, ['/']⟩ :=
  ⟨rfl, by decide⟩

/-- **C3 (amended)**: at a position whose remaining text starts with `/`:
when the next character does not begin a comment (is not a second `/`),
`ScanNoRegex` returns the division operator with lexeme `/`; and when the
remaining text begins a well-formed regex literal (at least one body byte
and a matching closing `/`, as recognized by `matchRegex`), the
regex-sensitive `Scan` returns a regex token spanning that literal. -/
theorem c3_slash_modes (s : Scanner) (rest : List Char) (n : Nat)
    (hrem : s.data.drop s.p = '/' :: rest) :
    (rest.headD ' ' ≠ '/' → (s.ScanNoRegex).1 = ⟨0, .DIV, ['/']⟩) ∧
    (matchRegex ('/' :: rest) = some n →
      (s.Scan).1 = ⟨0, .REGEX, ('/' :: rest).take n⟩) := by
  constructor
  · intro hns
    simp [Scanner.ScanNoRegex, Scanner.scan, scanCore, hrem, maxMunch_slash rest hns,
      spanLen, isSpaceCh]
  · intro hreg
    simp [Scanner.Scan, Scanner.scan, scanCore, hrem, hreg, spanLen, isSpaceCh]

/-- **C3 (witness)**: the amended theorem at the input `/.*/`. -/
theorem c3_slash_witness :
    (Scanner.new "/.*/").ScanNoRegex.1 = ⟨0, .DIV, ['/']⟩ ∧
    (Scanner.new "/.*/").Scan.1 = ⟨0, .REGEX, "/.*/".toList⟩ := by
  have h := c3_slash_modes (Scanner.new "/.*/") ".*/".toList 4 rfl
  exact ⟨h.1 (by decide), h.2 rfl⟩

/-- The digit characters of the lexical grammar (the ragel `digit`
class). -/
def digitChars : List Char := ['0', '1', '2', '3', '4', '5', '6', '7', '8', '9']

/-- The duration units of the lexical grammar (`duration_unit`). -/
def unitVocab : List (List Char) :=
  [['y'], ['m', 'o'], ['w'], ['d'], ['h'], ['m'], ['s'],
   ['m', 's'], ['u', 's'], ['µ', 's'], ['n', 's']]

/-- A well-formed `(digits, unit)` repetition of a duration literal whose
magnitude fits in an `int64`. -/
def wfRep (r : List Char × List Char) : Prop :=
  r.1 ≠ [] ∧ (∀ c ∈ r.1, c ∈ digitChars) ∧ digitsVal r.1 ≤ 2 ^ 63 - 1 ∧
    r.2 ∈ unitVocab

instance (r : List Char × List Char) : Decidable (wfRep r) := by
  unfold wfRep
  infer_instance

/-- The lexeme of a sequence of `(digits, unit)` repetitions. -/
def renderDuration (reps : List (List Char × List Char)) : List Char :=
  (reps.map fun r => r.1 ++ r.2).flatten

theorem isDigitCh_of_mem {c : Char} (h : c ∈ digitChars) : isDigitCh c = true := by
  fin_cases h <;> decide

theorem isUniLetter_of_mem_digit {c : Char} (h : c ∈ digitChars) :
    isUniLetter c = false := by
  fin_cases h <;> decide

theorem spanLen_append_all {p : Char → Bool} {xs : List Char}
    (h : ∀ c ∈ xs, p c = true) (ys : List Char) :
    spanLen p (xs ++ ys) = xs.length + spanLen p ys := by
  induction xs with
  | nil => simp
  | cons c cs ih =>
    have hc := h c (by simp)
    have ih2 := ih (fun x hx => h x (by simp [hx]))
    simp [spanLen, hc, ih2]
    omega

/-- A rendered well-formed repetition list starts with a digit (or is
empty), so its letter span is zero. -/
theorem spanLen_letter_render (reps : List (List Char × List Char))
    (h : ∀ r ∈ reps, wfRep r) :
    spanLen isUniLetter (renderDuration reps) = 0 := by
  cases reps with
  | nil => rfl
  | cons r rs =>
    obtain ⟨hne, hdig, _, _⟩ := h r (by simp)
    obtain ⟨d, ds, hd⟩ := List.exists_cons_of_ne_nil hne
    have hdl : isUniLetter d = false :=
      isUniLetter_of_mem_digit (hdig d (by simp [hd]))
    simp [renderDuration, hd, spanLen, hdl]

/-- `goParseInt` succeeds on a nonempty digit string within the `int64`
range. -/
theorem goParseInt_digits {ds : List Char} (hne : ds ≠ [])
    (hdig : ∀ c ∈ ds, c ∈ digitChars) (hb : digitsVal ds ≤ 2 ^ 63 - 1) :
    goParseInt ds = .ok (Int.ofNat (digitsVal ds)) := by
  have h1 : ds.isEmpty = false := by simpa [List.isEmpty_iff] using hne
  have h2 : ds.all isDigitCh = true := by
    simp only [List.all_eq_true]
    exact fun c hc => isDigitCh_of_mem (hdig c hc)
  have hb2 : digitsVal ds ≤ 9223372036854775807 := by simpa using hb
  simp [goParseInt, h1, h2, hb2]

/-- The core of the amended C9 claim: on the lexeme of a well-formed
repetition list, `parseDurationGo` (with enough steps) returns exactly the
repetitions in source order, units normalized. -/
theorem parseDurationGo_render (reps : List (List Char × List Char))
    (hwf : ∀ r ∈ reps, wfRep r) :
    ∀ fuel, (renderDuration reps).length ≤ fuel →
      parseDurationGo fuel (renderDuration reps) =
        .ok (reps.map fun r => (Int.ofNat (digitsVal r.1), normUnit r.2)) := by
  induction reps with
  | nil =>
    intro fuel _
    cases fuel <;> simp [renderDuration, parseDurationGo]
  | cons r rs ih =>
    intro fuel hf
    obtain ⟨rd, ru⟩ := r
    obtain ⟨hne, hdig, hb, hvocab⟩ := hwf (rd, ru) (by simp)
    have hwf2 : ∀ x ∈ rs, wfRep x := fun x hx => hwf x (by simp [hx])
    have hrend : renderDuration ((rd, ru) :: rs) =
        rd ++ (ru ++ renderDuration rs) := by
      simp [renderDuration]
    simp only at hne hdig hb hvocab
    have hdigs : ∀ c ∈ rd, isDigitCh c = true :=
      fun c hc => isDigitCh_of_mem (hdig c hc)
    obtain ⟨d, ds, hd⟩ := List.exists_cons_of_ne_nil hne
    have hlen1 : 0 < rd.length := by simp [hd]
    cases fuel with
    | zero =>
      exfalso
      rw [hrend] at hf
      simp only [List.length_append, Nat.le_zero] at hf
      omega
    | succ f =>
      have hspan1 : spanLen isDigitCh (renderDuration ((rd, ru) :: rs)) =
          rd.length := by
        rw [hrend, spanLen_append_all hdigs]
        have hz : spanLen isDigitCh (ru ++ renderDuration rs) = 0 := by
          rcases (by simpa [unitVocab] using hvocab :
            ru = ['y'] ∨ ru = ['m', 'o'] ∨ ru = ['w'] ∨ ru = ['d'] ∨
            ru = ['h'] ∨ ru = ['m'] ∨ ru = ['s'] ∨ ru = ['m', 's'] ∨
            ru = ['u', 's'] ∨ ru = ['µ', 's'] ∨ ru = ['n', 's']) with
            rfl | rfl | rfl | rfl | rfl | rfl | rfl | rfl | rfl | rfl | rfl <;>
            simp [spanLen, isDigitCh]
        omega
      have hspan2 : spanLen isUniLetter (ru ++ renderDuration rs) =
          ru.length := by
        have hz := spanLen_letter_render rs hwf2
        rcases (by simpa [unitVocab] using hvocab :
          ru = ['y'] ∨ ru = ['m', 'o'] ∨ ru = ['w'] ∨ ru = ['d'] ∨
          ru = ['h'] ∨ ru = ['m'] ∨ ru = ['s'] ∨ ru = ['m', 's'] ∨
          ru = ['u', 's'] ∨ ru = ['µ', 's'] ∨ ru = ['n', 's']) with
          rfl | rfl | rfl | rfl | rfl | rfl | rfl | rfl | rfl | rfl | rfl <;>
          simp [spanLen, isUniLetter, hz]
      have hemp : (renderDuration ((rd, ru) :: rs)).isEmpty = false := by
        rw [hrend, hd]
        rfl
      have htake1 : (renderDuration ((rd, ru) :: rs)).take
          (spanLen isDigitCh (renderDuration ((rd, ru) :: rs))) = rd := by
        rw [hspan1, hrend, List.take_left]
      have hdrop1 : (renderDuration ((rd, ru) :: rs)).drop
          (spanLen isDigitCh (renderDuration ((rd, ru) :: rs))) =
          ru ++ renderDuration rs := by
        rw [hspan1, hrend, List.drop_left]
      have htake2 : (ru ++ renderDuration rs).take
          (spanLen isUniLetter (ru ++ renderDuration rs)) = ru := by
        rw [hspan2, List.take_left]
      have hdrop2 : (ru ++ renderDuration rs).drop
          (spanLen isUniLetter (ru ++ renderDuration rs)) =
          renderDuration rs := by
        rw [hspan2, List.drop_left]
      have hfs : (renderDuration rs).length ≤ f := by
        rw [hrend] at hf
        simp only [List.length_append] at hf
        omega
      have hrec := ih hwf2 f hfs
      simp only [parseDurationGo, hemp, Bool.false_eq_true, if_false]
      rw [htake1, goParseInt_digits hne hdig hb]
      rw [hdrop1, htake2, hdrop2, hrec]
      rfl

/-- **C9 (counterexample)**: `9223372036854775808s` (magnitude `2^63`) is a
valid duration lexeme — `matchDuration` accepts all 20 characters — yet
`parseDuration` does not return the `(magnitude, unit)` sequence: the
`strconv.ParseInt` range check fails and the whole parse of the literal
errors. -/
theorem c9_duration_counterexample :
    matchDuration "9223372036854775808s".toList =
        some "9223372036854775808s".toList.length ∧
    parseDuration "9223372036854775808s".toList = .error "value out of range" :=
  ⟨rfl, rfl⟩

/-- **C9 (amended)**: for every nonempty sequence of `(digits, unit)`
repetitions with `int64`-range magnitudes, `parseDuration` on the rendered
lexeme returns exactly the `(magnitude, unit)` pairs in source order, with
`µs` normalized to `us` and every other unit verbatim, and the result is
nonempty. -/
theorem c9_duration_values (reps : List (List Char × List Char))
    (hne : reps ≠ []) (hwf : ∀ r ∈ reps, wfRep r) :
    parseDuration (renderDuration reps) =
      .ok (reps.map fun r => (Int.ofNat (digitsVal r.1), normUnit r.2)) ∧
    (reps.map fun r => (Int.ofNat (digitsVal r.1), normUnit r.2)) ≠ [] :=
  ⟨parseDurationGo_render reps hwf _ le_rfl, by simpa using hne⟩

/-- **C9 (witness)**: the amended theorem at `1mo5d` and at `1µs2ns` (the
latter exercising the `µs` normalization). -/
theorem c9_duration_witness :
    parseDuration "1mo5d".toList = .ok [(1, "mo".toList), (5, "d".toList)] ∧
    parseDuration "1µs2ns".toList = .ok [(1, "us".toList), (2, "ns".toList)] :=
  ⟨(c9_duration_values [(['1'], ['m', 'o']), (['5'], ['d'])]
      (by decide) (by decide)).1,
   (c9_duration_values [(['1'], ['µ', 's']), (['2'], ['n', 's'])]
      (by decide) (by decide)).1⟩

/-- The skip-until characterization of `expectGo`: either some token of the
replay is expected or an explicit end-of-input marker, in which case
everything before the first such token is silently discarded and the state
resumes right after it, or no such token exists and the whole replay is
discarded.  In both cases a state is returned; no error is reported. -/
theorem expectGo_spec (toks : List Token) (hc : Token.COMMENT ∉ toks)
    (l : List PTok) :
    (∃ pre t post, l = pre ++ t :: post ∧
      (∀ x ∈ pre, x.tok ∉ toks ∧ x.tok ≠ Token.EOF) ∧
      (t.tok ∈ toks ∨ t.tok = Token.EOF) ∧
      expectGo toks l = ⟨post, t :: post⟩) ∨
    ((∀ x ∈ l, x.tok ∉ toks ∧ x.tok ≠ Token.EOF) ∧
      expectGo toks l = ⟨[], []⟩) := by
  induction l with
  | nil => right; exact ⟨by simp, rfl⟩
  | cons t r ih =>
    by_cases h1 : t.tok = .COMMENT
    · have ht : t.tok ∉ toks ∧ t.tok ≠ Token.EOF := by
        rw [h1]; exact ⟨hc, by decide⟩
      have he : expectGo toks (t :: r) = expectGo toks r := by
        simp [expectGo, h1]
      rcases ih with ⟨pre, u, post, hsplit, hpre, hu, hres⟩ | ⟨hall, hres⟩
      · refine .inl ⟨t :: pre, u, post, by simp [hsplit], ?_, hu, by rw [he, hres]⟩
        intro x hx
        rcases List.mem_cons.mp hx with rfl | hx
        · exact ht
        · exact hpre x hx
      · refine .inr ⟨?_, by rw [he, hres]⟩
        intro x hx
        rcases List.mem_cons.mp hx with rfl | hx
        · exact ht
        · exact hall x hx
    · by_cases h2 : t.tok = .EOF
      · exact .inl ⟨[], t, r, by simp, by simp, .inr h2,
          by simp [expectGo, h1, h2]⟩
      · by_cases h3 : t.tok ∈ toks
        · exact .inl ⟨[], t, r, by simp, by simp, .inl h3,
            by simp [expectGo, h1, h2, h3]⟩
        · have ht : t.tok ∉ toks ∧ t.tok ≠ Token.EOF := ⟨h3, h2⟩
          have he : expectGo toks (t :: r) = expectGo toks r := by
            simp [expectGo, h1, h2, h3]
          rcases ih with ⟨pre, u, post, hsplit, hpre, hu, hres⟩ | ⟨hall, hres⟩
          · refine .inl ⟨t :: pre, u, post, by simp [hsplit], ?_, hu,
              by rw [he, hres]⟩
            intro x hx
            rcases List.mem_cons.mp hx with rfl | hx
            · exact ht
            · exact hpre x hx
          · refine .inr ⟨?_, by rw [he, hres]⟩
            intro x hx
            rcases List.mem_cons.mp hx with rfl | hx
            · exact ht
            · exact hall x hx

/-- **C10**: `expect` (used for the closing `)` of a parenthesized
expression, the `]` of an index expression, the `=` of an option statement
and the `=>` of an arrow function) silently consumes and discards every
non-matching token until an expected token or end-of-input and returns the
resulting state in both cases — a missing delimiter is never reported to
the caller. -/
theorem c10_expect_skips (toks : List Token) (st : PSt)
    (hc : Token.COMMENT ∉ toks) :
    (∃ pre t post, st.rest = pre ++ t :: post ∧
      (∀ x ∈ pre, x.tok ∉ toks ∧ x.tok ≠ Token.EOF) ∧
      (t.tok ∈ toks ∨ t.tok = Token.EOF) ∧
      expect toks st = ⟨post, t :: post⟩) ∨
    ((∀ x ∈ st.rest, x.tok ∉ toks ∧ x.tok ≠ Token.EOF) ∧
      expect toks st = ⟨[], []⟩) :=
  expectGo_spec toks hc st.rest

/-- **C10 (witness)**: the skip theorem at the replay of `option a b c = 1`
after the identifiers `option` and `a` — `expect [ASSIGN]` discards `b` and
`c` and stops after `=`. -/
theorem c10_expect_witness :
    (∃ pre t post,
      (PSt.ofList [⟨.IDENT, "b"⟩, ⟨.IDENT, "c"⟩, ⟨.ASSIGN, "="⟩,
        ⟨.INT, "1"⟩]).rest = pre ++ t :: post ∧
      (∀ x ∈ pre, x.tok ∉ [Token.ASSIGN] ∧ x.tok ≠ Token.EOF) ∧
      (t.tok ∈ [Token.ASSIGN] ∨ t.tok = Token.EOF) ∧
      expect [Token.ASSIGN] (PSt.ofList [⟨.IDENT, "b"⟩, ⟨.IDENT, "c"⟩,
        ⟨.ASSIGN, "="⟩, ⟨.INT, "1"⟩]) = ⟨post, t :: post⟩) ∨
    ((∀ x ∈ (PSt.ofList [⟨.IDENT, "b"⟩, ⟨.IDENT, "c"⟩, ⟨.ASSIGN, "="⟩,
        ⟨.INT, "1"⟩]).rest, x.tok ∉ [Token.ASSIGN] ∧ x.tok ≠ Token.EOF) ∧
      expect [Token.ASSIGN] (PSt.ofList [⟨.IDENT, "b"⟩, ⟨.IDENT, "c"⟩,
        ⟨.ASSIGN, "="⟩, ⟨.INT, "1"⟩]) = ⟨[], []⟩) :=
  c10_expect_skips [Token.ASSIGN]
    (PSt.ofList [⟨.IDENT, "b"⟩, ⟨.IDENT, "c"⟩, ⟨.ASSIGN, "="⟩, ⟨.INT, "1"⟩])
    (by decide)

end Flux
